import Mathlib

/-
  Verification of the flcli command interpreter (src/apps/flcli/main.c):
  the command-line mini-language parser (parseLine), the checksum
  (calcChecksum), and the chunked transfer engine (doRead / doWrite),
  shallowly embedded over lists of characters and bytes.  The transport
  boundary (libfpgalink calls) is modelled as a trace of events; the
  parse cursor is an explicit index into the line, and C strings are
  lists of characters with the terminating NUL modelled by reading
  '\x00' past the end of the list.
-/

set_option linter.unusedVariables false

namespace FLCli

/-- Return codes of the interpreter, from the C `ReturnCode` enum. -/
inductive ReturnCode where
  | FLP_SUCCESS
  | FLP_LIBERR
  | FLP_BAD_HEX
  | FLP_CHAN_RANGE
  | FLP_CONDUIT_RANGE
  | FLP_ILL_CHAR
  | FLP_UNTERM_STRING
  | FLP_NO_MEMORY
  | FLP_EMPTY_STRING
  | FLP_ODD_DIGITS
  | FLP_CANNOT_LOAD
  | FLP_CANNOT_SAVE
  | FLP_ARGS
deriving DecidableEq, Repr

open ReturnCode

/-- Calls made on the transport boundary, in program order.
`submitRead`/`awaitRead` are `flReadChannelAsyncSubmit`/`flReadChannelAsyncAwait`,
`syncRead` is `flReadChannel`, `writeAsync` is `flWriteChannelAsync`,
`syncWrite` is `flWriteChannel`, `awaitWrites` is `flAwaitAsyncWrites`,
`selectConduit` is `flSelectConduit`. -/
inductive Event where
  | submitRead (chan size : Nat)
  | awaitRead
  | syncRead (chan size : Nat)
  | writeAsync (chan : Nat) (bytes : List Nat)
  | syncWrite (chan : Nat) (bytes : List Nat)
  | awaitWrites
  | selectConduit (conduit : Nat)
deriving DecidableEq, Repr

/-- Mutable state of one `parseLine` call: the transport calls issued so
far and the `dataFromFPGA` output buffer of in-memory read results. -/
structure St where
  events : List Event
  outBuf : List Nat
deriving DecidableEq, Repr

/-- Outcome of parsing-and-executing one action: continue at cursor `i`,
or fail with a return code at an error column. -/
inductive Step where
  | ok (st : St) (i : Nat)
  | fail (code : ReturnCode) (col : Nat) (st : St)

/-- Result of a whole `parseLine` call: return code, final cursor offset
(the error column on failure), transport calls made, and the output buffer. -/
structure ParseResult where
  retVal : ReturnCode
  column : Nat
  events : List Event
  outBuf : List Nat
deriving DecidableEq, Repr

/-- The external world: what a synchronous channel read returns, the
contents of a file opened for reading (`none` = cannot open), and whether
a file can be opened for writing. -/
structure Env where
  readData : Nat → Nat → List Nat
  fileData : List Char → Option (List Nat)
  fileWritable : List Char → Bool

/-- Reading the C string at offset `i`: past the end of the list we read
the terminating NUL. -/
def getC (line : List Char) (i : Nat) : Char :=
  line.getD i '\x00'

/-- Length of the longest prefix whose characters all satisfy `p`
(the index advance performed by a C `while (p(*ptr)) ptr++;` loop). -/
def countWhile (p : Char → Bool) : List Char → Nat
  | [] => 0
  | c :: cs => if p c then countWhile p cs + 1 else 0

/-- Cursor after the `while (*ptr == ';') ptr++;` separator-skipping loop. -/
def skipSemis (line : List Char) (i : Nat) : Nat :=
  i + countWhile (fun c => c == ';') (line.drop i)

/-- Characters treated as whitespace by `strtoul` (C `isspace`). -/
def isSpace (c : Char) : Bool :=
  c == ' ' || c == '\x09' || c == '\x0a' || c == '\x0b' || c == '\x0c' || c == '\x0d'

/-- Cursor after skipping leading whitespace. -/
def skipSpaces (line : List Char) (i : Nat) : Nat :=
  i + countWhile isSpace (line.drop i)

/-- The source's `isHexDigit`: 0-9, a-f, A-F. -/
def isHexDigit (ch : Char) : Bool :=
  (ch ≥ '0' && ch ≤ '9') || (ch ≥ 'a' && ch ≤ 'f') || (ch ≥ 'A' && ch ≤ 'F')

/-- First index at or after `i` holding a non-hex-digit character. -/
def hexScanEnd (line : List Char) (i : Nat) : Nat :=
  i + countWhile isHexDigit (line.drop i)

/-- First index at or after `i` holding the closing quote `q` or NUL
(the `while (*p != quoteChar && *p != '\0') p++;` scan). -/
def quoteScanEnd (line : List Char) (q : Char) (i : Nat) : Nat :=
  i + countWhile (fun c => !(c == q) && !(c == '\x00')) (line.drop i)

/-- The source's `getHexNibble`: hex digit to its value, or none. -/
def getHexNibble (hexDigit : Char) : Option Nat :=
  if hexDigit ≥ '0' && hexDigit ≤ '9' then some (hexDigit.toNat - '0'.toNat)
  else if hexDigit ≥ 'a' && hexDigit ≤ 'f' then some (hexDigit.toNat - 'a'.toNat + 10)
  else if hexDigit ≥ 'A' && hexDigit ≤ 'F' then some (hexDigit.toNat - 'A'.toNat + 10)
  else none

/-- Value of a hex digit (0 for a non-digit; only applied to scanned digits). -/
def hexVal (c : Char) : Nat :=
  (getHexNibble c).getD 0

/-- The sublist of `line` from index `i` (inclusive) to `j` (exclusive). -/
def slice (line : List Char) (i j : Nat) : List Char :=
  (line.take j).drop i

/-- The source's `getHexByte`: the byte encoded by the two hex digits
at positions `i` and `i+1` (most-significant nibble first). -/
def hexByteAt (line : List Char) (i : Nat) : Nat :=
  16 * hexVal (getC line i) + hexVal (getC line (i + 1))

/-- Decode `count` bytes of inline hex starting at index `i`
(the `getHexByte` loop of the `w` action). -/
def decodeHexRun (line : List Char) (i : Nat) : Nat → List Nat
  | 0 => []
  | k + 1 => hexByteAt line i :: decodeHexRun line (i + 2) k

/-- Largest value representable in C `unsigned long` (64-bit). -/
def ULONG_MAX : Nat := 18446744073709551615

/-- Result of `strtoul(ptr, &end, 16)`: the value returned, the offset of
`end`, and whether `errno` was set to ERANGE. -/
structure StrtoulRes where
  val : Nat
  endIdx : Nat
  erange : Bool
deriving DecidableEq, Repr

/-- C `strtoul` with base 16: skip whitespace, optional sign, optional
`0x`/`0X` prefix (only when followed by a hex digit), then hex digits.
If no digits are consumed, the end pointer is the original start, the
value is 0 and errno is untouched.  On overflow of `unsigned long` the
value is ULONG_MAX and errno is ERANGE.  A `-` sign negates the value
modulo 2^64 (not a range error, per the C standard). -/
def strtoul (line : List Char) (start : Nat) : StrtoulRes :=
  let i1 := skipSpaces line start
  let neg := getC line i1 == '-'
  let i2 := if getC line i1 == '-' || getC line i1 == '+' then i1 + 1 else i1
  let i3 :=
    if getC line i2 == '0' && (getC line (i2 + 1) == 'x' || getC line (i2 + 1) == 'X')
        && isHexDigit (getC line (i2 + 2)) then
      i2 + 2
    else i2
  let j := hexScanEnd line i3
  if j = i3 then ⟨0, start, false⟩
  else
    let raw := (slice line i3 j).foldl (fun a c => 16 * a + hexVal c) 0
    if raw > ULONG_MAX then ⟨ULONG_MAX, j, true⟩
    else ⟨if neg then (18446744073709551616 - raw) % 18446744073709551616 else raw, j, false⟩

/-- One chunk of the running 16-bit checksum: fold the transferred bytes
in order, wrapping at 65536 on each addition (the per-chunk loops of
`doRead` and `doWrite`). -/
def csUpdate (acc : Nat) (bytes : List Nat) : Nat :=
  bytes.foldl (fun a b => (a + b) % 65536) acc

/-- The source's `calcChecksum`: 16-bit wraparound sum of all bytes. -/
def calcChecksum (data : List Nat) : Nat :=
  csUpdate 0 data

/-- The `READ_MAX` chunk bound from `doRead`. -/
def READ_MAX : Nat := 65536

/-- The `WRITE_MAX` chunk bound from `doWrite`: 65536 - 5. -/
def WRITE_MAX : Nat := 65536 - 5

/-- Chunk sizes taken by the `while (length)` loop of `doRead` for a
remaining length `r`: each chunk is `min r READ_MAX`.  The first argument
is fuel bounding the number of chunks (each chunk removes at least one
byte, so fuel `r` always suffices). -/
def chunksGo : Nat → Nat → List Nat
  | 0, _ => []
  | _ + 1, 0 => []
  | fuel + 1, r + 1 =>
    min (r + 1) READ_MAX :: chunksGo fuel (r + 1 - min (r + 1) READ_MAX)

/-- The submit/await pair issued by one iteration of the `doRead` loop. -/
def pipeBlock (chan : Nat) (c : Nat) : List Event :=
  [Event.submitRead chan c, Event.awaitRead]

/-- Transport-call trace of `doRead`'s pipelined protocol: the initial
submit of size `c0`, then for each later chunk a submit followed by the
await of the previous chunk, then the final await of the last chunk. -/
def pipeTrace (chan c0 : Nat) (rest : List Nat) : List Event :=
  Event.submitRead chan c0 :: ((rest.map (pipeBlock chan)).flatten ++ [Event.awaitRead])

/-- Transport calls made by `doRead(handle, chan, length, ...)`: submit
the first chunk of size `min length READ_MAX`, then the pipelined loop
over the remaining length. -/
def doRead (chan length : Nat) : List Event :=
  pipeTrace chan (min length READ_MAX)
    (chunksGo (length - min length READ_MAX) (length - min length READ_MAX))

/-- Accumulator of the `doWrite` do/while loop: iterations performed
(`fread` calls), `lenVal`, `csVal`, and transport calls. -/
structure WriteAcc where
  iters : Nat
  lenVal : Nat
  csVal : Nat
  events : List Event
deriving DecidableEq, Repr

/-- Result of `doWrite`: return code plus the final accumulator fields. -/
structure WriteRes where
  retVal : ReturnCode
  iters : Nat
  lenVal : Nat
  csVal : Nat
  events : List Event
deriving DecidableEq, Repr

/-- The do/while loop of `doWrite`: read up to WRITE_MAX bytes from the
source, and if any were read submit them asynchronously and accumulate
length and checksum; repeat while the read was a full chunk.  `src` is
the unread remainder of the source file; the fuel argument bounds the
iteration count (each repeated iteration consumes WRITE_MAX bytes, so
`src.length + 1` always suffices). -/
def doWriteGo (chan : Nat) : Nat → List Nat → WriteAcc → WriteAcc
  | 0, _, acc => acc
  | fuel + 1, src, acc =>
    let chunk := src.take WRITE_MAX
    let bytesRead := chunk.length
    let acc2 :=
      if bytesRead = 0 then acc
      else
        { acc with
          lenVal := acc.lenVal + bytesRead
          csVal := csUpdate acc.csVal chunk
          events := acc.events ++ [Event.writeAsync chan chunk] }
    if bytesRead = WRITE_MAX then
      doWriteGo chan fuel (src.drop WRITE_MAX) { acc2 with iters := acc2.iters + 1 }
    else { acc2 with iters := acc2.iters + 1 }

/-- Model of `doWrite(handle, chan, srcFile, ...)` over a source file holding
`src`: the chunk loop followed by the `flAwaitAsyncWrites` barrier,
returning FLP_SUCCESS with the accumulated length and checksum. -/
def doWrite (chan : Nat) (src : List Nat) : WriteRes :=
  let acc := doWriteGo chan (src.length + 1) src ⟨0, 0, 0, []⟩
  ⟨FLP_SUCCESS, acc.iters, acc.lenVal, acc.csVal, acc.events ++ [Event.awaitWrites]⟩

/-- The memory-destination branch of the `r` action (fileName == NULL):
grow `dataFromFPGA` by `length` zero bytes and fill them with a single
synchronous `flReadChannel` call. -/
def execMemRead (env : Env) (chan len : Nat) (st : St) : St :=
  let d := env.readData chan len
  { events := st.events ++ [Event.syncRead chan len]
    outBuf := st.outBuf ++ (d.take len ++ List.replicate (len - d.length) 0) }

/-- Continuation of the `r` action after `r<chan> ` (a space was seen):
parse the read count, then an optional quoted destination filename; run
the transfer with `doRead` (file destination) or a synchronous read into
the output buffer (memory destination). -/
def readWithLength (env : Env) (line : List Char) (chan i0 : Nat) (st : St) : Step :=
  let r := strtoul line i0
  if r.erange then Step.fail FLP_BAD_HEX i0 st
  else
    let length := r.val % 4294967296
    let i := r.endIdx
    let c := getC line i
    if c ≠ '\x00' ∧ c ≠ ';' ∧ c ≠ ' ' then Step.fail FLP_ILL_CHAR i st
    else if c = ' ' then
      let iq := i + 1
      let q := getC line iq
      if q ≠ '"' ∧ q ≠ '\'' then Step.fail FLP_ILL_CHAR iq st
      else
        let istr := iq + 1
        let p := quoteScanEnd line q istr
        if getC line p = '\x00' then Step.fail FLP_UNTERM_STRING istr st
        else if p = istr then Step.fail FLP_EMPTY_STRING istr st
        else
          let fileName := slice line istr p
          let iafter := p + 1
          if env.fileWritable fileName then
            Step.ok { st with events := st.events ++ doRead chan length } iafter
          else Step.fail FLP_CANNOT_SAVE iafter st
    else Step.ok (execMemRead env chan length st) i

/-- The `r` action, entered with the cursor just past the `r`: parse the
channel (strtoul base 16, errno check, 0-127 range check on the uint32
cast), then the optional count/destination. -/
def actRead (env : Env) (line : List Char) (i0 : Nat) (st : St) : Step :=
  let r := strtoul line i0
  if r.erange then Step.fail FLP_BAD_HEX i0 st
  else
    let chan := r.val % 4294967296
    if chan > 127 then Step.fail FLP_CHAN_RANGE i0 st
    else
      let i := r.endIdx
      let c := getC line i
      if c ≠ '\x00' ∧ c ≠ ';' ∧ c ≠ ' ' then Step.fail FLP_ILL_CHAR i st
      else if c = ' ' then readWithLength env line chan (i + 1) st
      else Step.ok (execMemRead env chan 1 st) i

/-- The `w` action, entered with the cursor just past the `w`: parse the
channel (no uint32 cast before the range check here), require one space,
then either a quoted source filename (run `doWrite` on its contents) or
an even-length run of inline hex digits (decode and issue one synchronous
`flWriteChannel`). -/
def actWrite (env : Env) (line : List Char) (i0 : Nat) (st : St) : Step :=
  let r := strtoul line i0
  if r.erange then Step.fail FLP_BAD_HEX i0 st
  else if r.val > 127 then Step.fail FLP_CHAN_RANGE i0 st
  else
    let chan := r.val
    let i := r.endIdx
    if getC line i ≠ ' ' then Step.fail FLP_ILL_CHAR i st
    else
      let ich := i + 1
      let ch := getC line ich
      if ch = '"' ∨ ch = '\'' then
        let istr := ich + 1
        let p := quoteScanEnd line ch istr
        if getC line p = '\x00' then Step.fail FLP_UNTERM_STRING istr st
        else if p = istr then Step.fail FLP_EMPTY_STRING istr st
        else
          let fileName := slice line istr p
          let iafter := p + 1
          match env.fileData fileName with
          | none => Step.fail FLP_CANNOT_LOAD iafter st
          | some src =>
            Step.ok { st with events := st.events ++ (doWrite chan src).events } iafter
      else if isHexDigit ch then
        let p := hexScanEnd line (ich + 1)
        if (p - ich) % 2 = 1 then Step.fail FLP_ODD_DIGITS ich st
        else
          let len := (p - ich) / 2
          let data := decodeHexRun line ich len
          Step.ok { st with events := st.events ++ [Event.syncWrite chan data] } (ich + 2 * len)
      else Step.fail FLP_ILL_CHAR ich st

/-- The `+` action, entered with the cursor just past the `+`: parse the
conduit (errno check, 0-255 range check), require end-of-line or `;`,
then issue `flSelectConduit`. -/
def actConduit (env : Env) (line : List Char) (i0 : Nat) (st : St) : Step :=
  let r := strtoul line i0
  if r.erange then Step.fail FLP_BAD_HEX i0 st
  else
    let conduit := r.val % 4294967296
    if conduit > 255 then Step.fail FLP_CONDUIT_RANGE i0 st
    else
      let i := r.endIdx
      let c := getC line i
      if c ≠ '\x00' ∧ c ≠ ';' then Step.fail FLP_ILL_CHAR i st
      else Step.ok { st with events := st.events ++ [Event.selectConduit conduit] } i

/-- The do/while action loop of `parseLine`: skip `;` separators,
dispatch on the current character (`r`/`w`/`+`, anything else is an
illegal character), and after a successful action repeat while the next
character is `;`; when it is not, the line must be exhausted.  Fuel
bounds the iteration count; `parseLine` supplies enough for any line. -/
def parseLineGo (env : Env) (line : List Char) : Nat → Nat → St → ParseResult
  | 0, i, st => ⟨FLP_ILL_CHAR, i, st.events, st.outBuf⟩
  | fuel + 1, i, st =>
    let j := skipSemis line i
    let c := getC line j
    let step :=
      if c = 'r' then actRead env line (j + 1) st
      else if c = 'w' then actWrite env line (j + 1) st
      else if c = '+' then actConduit env line (j + 1) st
      else Step.fail FLP_ILL_CHAR j st
    match step with
    | Step.fail code col st2 => ⟨code, col, st2.events, st2.outBuf⟩
    | Step.ok st2 i2 =>
      if getC line i2 = ';' then parseLineGo env line fuel i2 st2
      else if getC line i2 = '\x00' then ⟨FLP_SUCCESS, i2, st2.events, st2.outBuf⟩
      else ⟨FLP_ILL_CHAR, i2, st2.events, st2.outBuf⟩

/-- The source's `parseLine`: run the action loop from the start of
the line with an empty output buffer.  The column field is the final
cursor offset (`ptr - line`), which is the reported error column on
failure. -/
def parseLine (env : Env) (line : List Char) : ParseResult :=
  parseLineGo env line (line.length + 1) 0 ⟨[], []⟩

/-- Is this event an asynchronous read submission? -/
def isSubmit : Event → Bool
  | Event.submitRead _ _ => true
  | _ => false

/-- Is this event an asynchronous read await? -/
def isAwait : Event → Bool
  | Event.awaitRead => true
  | _ => false

/-- Is this event a conduit selection? -/
def isSelect : Event → Bool
  | Event.selectConduit _ => true
  | _ => false

/-- Number of read submissions in a trace. -/
def countSubmits (evs : List Event) : Nat := evs.countP isSubmit

/-- Number of read awaits in a trace. -/
def countAwaits (evs : List Event) : Nat := evs.countP isAwait

/-- Chunks submitted but not yet awaited after a trace (prefix). -/
def outstanding (evs : List Event) : Nat := countSubmits evs - countAwaits evs

/-- The sizes of the read chunks submitted in a trace, in order. -/
def submitSizes : List Event → List Nat
  | [] => []
  | Event.submitRead _ n :: t => n :: submitSizes t
  | _ :: t => submitSizes t

/-- Predicate over chunk sizes: `sizesGreedyB rem sizes` holds when each size in `sizes` equals
`min remaining READ_MAX` for the remaining length at its point in the
sequence, and the sizes exactly exhaust `rem`. -/
def sizesGreedyB : Nat → List Nat → Bool
  | rem, [] => rem == 0
  | rem, c :: cs => (c == min rem READ_MAX) && sizesGreedyB (rem - c) cs

/-- A concrete environment: a synchronous read of `len` bytes returns
`len` copies of byte 0x37, no file can be opened. -/
def env0 : Env :=
  { readData := fun _ len => List.replicate len 55
    fileData := fun _ => none
    fileWritable := fun _ => false }

/-- The pipelining contract of `doRead` for a multi-chunk read: first
call is the submit of a READ_MAX-sized chunk, last call is an await, the
trace is the strict submit(N+1)-before-await(N) interleaving given by
`pipeTrace`, submits and awaits balance, every submitted chunk size is
`min remaining READ_MAX`, at most two chunks are outstanding at any
instant, and at most one chunk is outstanding at every point where a
chunk has just been awaited (while the host processes its data). -/
def readPipelineOk (chan L : Nat) : Prop :=
  (doRead chan L).head? = some (Event.submitRead chan READ_MAX)
  ∧ (doRead chan L).getLast? = some Event.awaitRead
  ∧ doRead chan L = pipeTrace chan READ_MAX (List.tail (submitSizes (doRead chan L)))
  ∧ countSubmits (doRead chan L) = countAwaits (doRead chan L)
  ∧ sizesGreedyB L (submitSizes (doRead chan L)) = true
  ∧ (∀ n, outstanding ((doRead chan L).take n) ≤ 2)
  ∧ (∀ n, ((doRead chan L).take n).getLast? = some Event.awaitRead →
      outstanding ((doRead chan L).take n) ≤ 1)

/-- Folding the checksum update over a concatenation processes the two
parts in sequence. -/
theorem csUpdate_append (acc : Nat) (a b : List Nat) :
    csUpdate acc (a ++ b) = csUpdate (csUpdate acc a) b := by
  simp [csUpdate, List.foldl_append]

/-- Folding the per-chunk checksum update over a chunk list equals the
single update over the concatenation, for any starting accumulator. -/
theorem foldl_csUpdate_flatten (chunks : List (List Nat)) :
    ∀ acc : Nat, chunks.foldl csUpdate acc = csUpdate acc chunks.flatten := by
  induction chunks with
  | nil => intro acc; simp [csUpdate]
  | cons c cs ih => intro acc; simp [List.foldl_cons, ih, csUpdate_append]

/-- C3 (confirmed): the 16-bit checksum is chunk-size invariant.  For
every partition of a byte sequence into chunks, folding the per-byte
update `acc = (acc + byte) mod 65536` chunk by chunk in transfer order
yields `calcChecksum` of the concatenation. -/
theorem c3_theorem (chunks : List (List Nat)) :
    chunks.foldl csUpdate 0 = calcChecksum chunks.flatten :=
  foldl_csUpdate_flatten chunks 0

/-- C7 (confirmed): input `r200` (channel 0x200 > 127) fails with
ChanRange at column 1 (immediately after the `r`, before the parse
cursor advances past the channel digits), with no transport call made. -/
theorem c7_theorem :
    (parseLine env0 ("r200").toList).retVal = FLP_CHAN_RANGE
    ∧ (parseLine env0 ("r200").toList).column = 1
    ∧ (parseLine env0 ("r200").toList).events = [] := by decide

/-- C8 (confirmed): a Write with an odd-length inline hex run fails with
OddDigits: `w1 48656` (run length 5) fails with FLP_ODD_DIGITS and no
write transport call is made. -/
theorem c8_theorem :
    (parseLine env0 ("w1 48656").toList).retVal = FLP_ODD_DIGITS
    ∧ (parseLine env0 ("w1 48656").toList).events = [] := by decide

/-- C6 (confirmed): on `r1 5;+2zz` parseLine fails with IllegalChar at
column 7 (the first `z`), the conduit value 2 itself having parsed, and
no `flSelectConduit` call is made: the trailing-character check precedes
the transport call.  (The read action earlier on the line did execute.) -/
theorem c6_theorem :
    (parseLine env0 ("r1 5;+2zz").toList).retVal = FLP_ILL_CHAR
    ∧ (parseLine env0 ("r1 5;+2zz").toList).column = 7
    ∧ (parseLine env0 ("r1 5;+2zz").toList).events = [Event.syncRead 1 5]
    ∧ ((parseLine env0 ("r1 5;+2zz").toList).events.all fun e => !(isSelect e)) = true := by
  decide

/-- C9 (confirmed): numeric fields use `strtoul` base-16 semantics, so
numerals outside the section-6 grammar are accepted: leading whitespace,
a `0x`/`0X` prefix, and a leading sign are consumed as part of the
number; in particular `r0x5` (and also `r 5`) parses as a successful
read of channel 5 with default length 1. -/
theorem c9_theorem :
    strtoul (" 1f").toList 0 = ⟨31, 3, false⟩
    ∧ strtoul ("0x5").toList 0 = ⟨5, 3, false⟩
    ∧ strtoul ("-1").toList 0 = ⟨18446744073709551615, 2, false⟩
    ∧ (parseLine env0 ("r0x5").toList).retVal = FLP_SUCCESS
    ∧ (parseLine env0 ("r0x5").toList).events = [Event.syncRead 5 1]
    ∧ (parseLine env0 ("r 5").toList).retVal = FLP_SUCCESS
    ∧ (parseLine env0 ("r 5").toList).events = [Event.syncRead 5 1] := by decide

/-- C2 (counterexample): on `rz` the channel field consumes no hex
digits, yet parseLine fails with FLP_ILL_CHAR, not FLP_BAD_HEX as the
claim states: `strtoul` does not set errno when it consumes no digits,
so the errno check passes (channel 0) and the following character check
rejects the `z`. -/
theorem c2_counterexample :
    (parseLine env0 ("rz").toList).retVal = FLP_ILL_CHAR
    ∧ (parseLine env0 ("rz").toList).retVal ≠ FLP_BAD_HEX := by decide

/-- C2 (corrected): when a Read action's channel field consumes no hex
digits, `strtoul` returns 0 with the end pointer at the start and errno
untouched, so parseLine treats the channel as 0 and `rz` fails with
IllegalChar at column 1 (the unconsumed character); BadHex arises only
when `strtoul` sets errno = ERANGE, e.g. for a 17-digit hex numeral
overflowing unsigned long. -/
theorem c2_theorem :
    (parseLine env0 ("rz").toList).retVal = FLP_ILL_CHAR
    ∧ (parseLine env0 ("rz").toList).column = 1
    ∧ (parseLine env0 ('r' :: List.replicate 17 'f')).retVal = FLP_BAD_HEX := by decide

/-- C1 (counterexample): for the Memory-destination read `r1 5` the
transfer is a single synchronous `flReadChannel` call — the trace is
exactly one `syncRead` event and contains no chunked submit/await
transport calls, refuting the claim that Memory reads go through the
pipelined chunked engine. -/
theorem c1_counterexample :
    (parseLine env0 ("r1 5").toList).retVal = FLP_SUCCESS
    ∧ (parseLine env0 ("r1 5").toList).events = [Event.syncRead 1 5]
    ∧ ((parseLine env0 ("r1 5").toList).events.all
        fun e => !(isSubmit e || isAwait e)) = true := by decide

/-- C1 (corrected): a Read with Memory destination is executed by a
single unchunked synchronous `flReadChannel` call whose result (the
transport's bytes for that channel and length) is appended to the
OutputBuffer; only File destinations use the pipelined chunked engine.
The general part characterizes the memory-read branch `execMemRead`; the
concrete part shows `r1 5` reaches it. -/
theorem c1_theorem (env : Env) (chan len : Nat) (st : St)
    (h : (env.readData chan len).length = len) :
    ((execMemRead env chan len st).events = st.events ++ [Event.syncRead chan len]
      ∧ (execMemRead env chan len st).outBuf = st.outBuf ++ env.readData chan len)
    ∧ (parseLine env0 ("r1 5").toList).retVal = FLP_SUCCESS
    ∧ (parseLine env0 ("r1 5").toList).events = [Event.syncRead 1 5] := by
  have h1 : (env.readData chan len).take len = env.readData chan len :=
    List.take_of_length_le (le_of_eq h)
  have h2 : len - (env.readData chan len).length = 0 := by omega
  refine ⟨⟨rfl, ?_⟩, by decide, by decide⟩
  simp [execMemRead, h1, h2]

/-- Witness for C1's corrected theorem at env0, channel 1, length 5. -/
theorem c1_witness :
    (env0.readData 1 5).length = 5
    ∧ (((execMemRead env0 1 5 ⟨[], []⟩).events
          = (⟨[], []⟩ : St).events ++ [Event.syncRead 1 5]
        ∧ (execMemRead env0 1 5 ⟨[], []⟩).outBuf
          = (⟨[], []⟩ : St).outBuf ++ env0.readData 1 5)
      ∧ (parseLine env0 ("r1 5").toList).retVal = FLP_SUCCESS
      ∧ (parseLine env0 ("r1 5").toList).events = [Event.syncRead 1 5]) :=
  ⟨by decide, c1_theorem env0 1 5 ⟨[], []⟩ (by decide)⟩

/-- The `doWrite` loop on a source whose length is exactly `k` full
chunks performs `k` full-chunk iterations plus one final zero-byte read
iteration, accumulating exactly the source length. -/
theorem doWriteGo_exact (chan : Nat) : ∀ (k fuel : Nat), k < fuel →
    ∀ (src : List Nat) (acc : WriteAcc), src.length = k * WRITE_MAX →
      (doWriteGo chan fuel src acc).iters = acc.iters + k + 1
      ∧ (doWriteGo chan fuel src acc).lenVal = acc.lenVal + k * WRITE_MAX := by
  intro k
  induction k with
  | zero =>
    intro fuel hf src acc hlen
    obtain ⟨f, rfl⟩ : ∃ f, fuel = f + 1 := ⟨fuel - 1, by omega⟩
    have hsrc : src = [] := List.eq_nil_of_length_eq_zero (by omega)
    subst hsrc
    simp [doWriteGo, WRITE_MAX]
  | succ k ih =>
    intro fuel hf src acc hlen
    obtain ⟨f, rfl⟩ : ∃ f, fuel = f + 1 := ⟨fuel - 1, by omega⟩
    have hWM : (0 : Nat) < WRITE_MAX := by decide
    have htake : (src.take WRITE_MAX).length = WRITE_MAX := by
      rw [List.length_take, hlen]
      exact Nat.min_eq_left (Nat.le_mul_of_pos_left _ k.succ_pos)
    have hdrop : (src.drop WRITE_MAX).length = k * WRITE_MAX := by
      rw [List.length_drop, hlen]
      simp [WRITE_MAX] at *
      omega
    have hfk : k < f := by
      have : WRITE_MAX ≤ (k + 1) * WRITE_MAX := Nat.le_mul_of_pos_left _ k.succ_pos
      simp [WRITE_MAX] at hf hlen this ⊢
      omega
    have ihr := ih f hfk (src.drop WRITE_MAX)
      { acc with
        iters := acc.iters + 1
        lenVal := acc.lenVal + WRITE_MAX
        csVal := csUpdate acc.csVal (src.take WRITE_MAX)
        events := acc.events ++ [Event.writeAsync chan (src.take WRITE_MAX)] } hdrop
    have hne : ¬ (WRITE_MAX = 0) := by decide
    simp only [doWriteGo, htake, if_neg hne, eq_self_iff_true, if_true, ite_true]
    refine ⟨?_, ?_⟩
    · rw [ihr.1]; simp; omega
    · rw [ihr.2]; simp [WRITE_MAX]; omega

/-- C4 (confirmed): for any source whose length is an exact multiple of
WRITE_MAX = 65536 - 5 (including the empty source), the doWrite chunk
loop terminates after `length / WRITE_MAX` full-chunk iterations plus
one extra zero-byte read iteration; for the empty source it reports
success with total length 0 and checksum 0x0000. -/
theorem c4_theorem (chan : Nat) (src : List Nat)
    (h : src.length % WRITE_MAX = 0) :
    (doWrite chan src).retVal = FLP_SUCCESS
    ∧ (doWrite chan src).iters = src.length / WRITE_MAX + 1
    ∧ (doWrite chan src).lenVal = src.length
    ∧ (doWrite chan []).retVal = FLP_SUCCESS
    ∧ (doWrite chan []).lenVal = 0
    ∧ (doWrite chan []).csVal = 0 := by
  have hk : src.length / WRITE_MAX * WRITE_MAX = src.length :=
    Nat.div_mul_cancel (Nat.dvd_of_mod_eq_zero h)
  have hlt : src.length / WRITE_MAX < src.length + 1 :=
    Nat.lt_succ_of_le (Nat.div_le_self _ _)
  have hmain := doWriteGo_exact chan (src.length / WRITE_MAX) (src.length + 1)
    hlt src ⟨0, 0, 0, []⟩ hk.symm
  refine ⟨rfl, ?_, ?_, rfl, rfl, rfl⟩
  · show (doWriteGo chan (src.length + 1) src ⟨0, 0, 0, []⟩).iters = _
    rw [hmain.1]; simp
  · show (doWriteGo chan (src.length + 1) src ⟨0, 0, 0, []⟩).lenVal = _
    rw [hmain.2, hk]; simp

/-- Witness for C4 at channel 0 and the empty source. -/
theorem c4_witness :
    ([] : List Nat).length % WRITE_MAX = 0
    ∧ ((doWrite 0 []).retVal = FLP_SUCCESS
      ∧ (doWrite 0 []).iters = ([] : List Nat).length / WRITE_MAX + 1
      ∧ (doWrite 0 []).lenVal = ([] : List Nat).length
      ∧ (doWrite 0 []).retVal = FLP_SUCCESS
      ∧ (doWrite 0 []).lenVal = 0
      ∧ (doWrite 0 []).csVal = 0) :=
  ⟨by decide, c4_theorem 0 [] (by decide)⟩

/-- Skipping separators over a line made only of `;` consumes them all. -/
theorem countWhile_semis (n : Nat) :
    countWhile (fun c => c == ';') (List.replicate n ';') = n := by
  induction n with
  | zero => rfl
  | succ n ih => simp [List.replicate_succ, countWhile, ih]

/-- The separator-skipping loop started at 0 on a line of `n` semicolons
stops at offset `n`, the position of the terminating NUL. -/
theorem skipSemis_replicate (n : Nat) :
    skipSemis (List.replicate n ';') 0 = n := by
  simp [skipSemis, countWhile_semis]

/-- C10 (confirmed): the empty command line, and any line consisting only
of `;` separators, is not an empty success: parseLine fails with
IllegalChar at the end-of-line column (the position of the terminating
NUL), with no transport call made and an empty output buffer. -/
theorem c10_theorem (env : Env) (n : Nat) :
    parseLine env (List.replicate n ';') = ⟨FLP_ILL_CHAR, n, [], []⟩ := by
  have hget : getC (List.replicate n ';') n = '\x00' := by
    unfold getC
    exact List.getD_eq_default _ _ (by simp)
  simp [parseLine, List.length_replicate, parseLineGo, skipSemis_replicate, hget]

/-- One-step unfolding of the greedy chunk-size predicate. -/
theorem sizesGreedyB_cons (rem c : Nat) (cs : List Nat) :
    sizesGreedyB rem (c :: cs)
      = ((c == min rem READ_MAX) && sizesGreedyB (rem - c) cs) := rfl

/-- Unfolding the pipelined trace by one loop iteration: the head submit,
then the next chunk's submit, then the await of the previous chunk, then
the rest of the interleaving. -/
theorem pipeTrace_cons (chan c0 c : Nat) (cs : List Nat) :
    pipeTrace chan c0 (c :: cs) =
      Event.submitRead chan c0 :: Event.submitRead chan c :: Event.awaitRead ::
        ((cs.map (pipeBlock chan)).flatten ++ [Event.awaitRead]) := by
  simp [pipeTrace, pipeBlock]

/-- The pipelined trace always ends with the await of the last chunk. -/
theorem pipe_last (chan c0 : Nat) (cs : List Nat) :
    (pipeTrace chan c0 cs).getLast? = some Event.awaitRead := by
  rw [pipeTrace, ← List.cons_append, List.getLast?_concat]

/-- Every chunk submitted in the pipelined trace is eventually awaited:
submits and awaits balance. -/
theorem pipe_counts (chan : Nat) (cs : List Nat) : ∀ c0,
    countSubmits (pipeTrace chan c0 cs) = countAwaits (pipeTrace chan c0 cs) := by
  induction cs with
  | nil =>
    intro c0
    simp [pipeTrace, countSubmits, countAwaits, List.countP_cons, isSubmit, isAwait]
  | cons c cs ih =>
    intro c0
    have h := ih c
    rw [show pipeTrace chan c cs
        = Event.submitRead chan c ::
            ((cs.map (pipeBlock chan)).flatten ++ [Event.awaitRead]) from rfl] at h
    rw [pipeTrace_cons]
    simp only [countSubmits, countAwaits, List.countP_cons, isSubmit, isAwait] at h ⊢
    simp at h ⊢
    omega

/-- The chunk sizes submitted by the pipelined trace are the first chunk
followed by the loop chunks, in order. -/
theorem pipe_sizes (chan : Nat) (cs : List Nat) : ∀ c0,
    submitSizes (pipeTrace chan c0 cs) = c0 :: cs := by
  induction cs with
  | nil => intro c0; simp [pipeTrace, submitSizes]
  | cons c cs ih =>
    intro c0
    have h := ih c
    rw [show pipeTrace chan c cs
        = Event.submitRead chan c ::
            ((cs.map (pipeBlock chan)).flatten ++ [Event.awaitRead]) from rfl] at h
    rw [pipeTrace_cons]
    simp only [submitSizes] at h ⊢
    simp at h
    rw [h]

/-- The loop chunk sizes of `doRead` are greedy: each chunk is the
minimum of the remaining length and READ_MAX, and they exhaust the
remaining length (when given sufficient fuel). -/
theorem chunksGo_greedy : ∀ (fuel r : Nat), r ≤ fuel →
    sizesGreedyB r (chunksGo fuel r) = true := by
  intro fuel
  induction fuel with
  | zero =>
    intro r hr
    have : r = 0 := Nat.le_zero.mp hr
    subst this
    simp [chunksGo, sizesGreedyB]
  | succ f ih =>
    intro r hr
    cases r with
    | zero => simp [chunksGo, sizesGreedyB]
    | succ r =>
      have hRM : (0 : Nat) < READ_MAX := by decide
      have hc : 0 < min (r + 1) READ_MAX := lt_min (Nat.succ_pos r) hRM
      have hrec : r + 1 - min (r + 1) READ_MAX ≤ f := by omega
      simp only [chunksGo, sizesGreedyB, Bool.and_eq_true, beq_iff_eq]
      exact ⟨trivial, ih _ hrec⟩

/-- Prefix invariant of the pipelined trace: at any instant at most two
chunks are outstanding (submitted but not yet awaited), and at every
prefix ending in an await — where the host processes the awaited
chunk — at most one chunk is outstanding. -/
theorem pipe_out (chan : Nat) (cs : List Nat) : ∀ (c0 n : Nat),
    outstanding ((pipeTrace chan c0 cs).take n) ≤ 2
    ∧ (((pipeTrace chan c0 cs).take n).getLast? = some Event.awaitRead →
        outstanding ((pipeTrace chan c0 cs).take n) ≤ 1) := by
  induction cs with
  | nil =>
    intro c0 n
    have hpt : pipeTrace chan c0 [] = [Event.submitRead chan c0, Event.awaitRead] := by
      simp [pipeTrace]
    rw [hpt]
    rcases n with _ | _ | n
    · simp [outstanding, countSubmits, countAwaits]
    · refine ⟨?_, ?_⟩
      · simp [outstanding, countSubmits, countAwaits, List.countP_cons, isSubmit, isAwait]
      · intro hlast; simp [List.take] at hlast
    · refine ⟨?_, ?_⟩ <;>
        simp [List.take_succ_cons, outstanding, countSubmits, countAwaits,
          List.countP_cons, isSubmit, isAwait]
  | cons c cs ih =>
    intro c0 n
    rw [pipeTrace_cons]
    rcases n with _ | _ | _ | _ | k
    · simp [outstanding, countSubmits, countAwaits]
    · refine ⟨?_, ?_⟩
      · simp [outstanding, countSubmits, countAwaits, List.countP_cons, isSubmit, isAwait]
      · intro hlast; simp [List.take] at hlast
    · refine ⟨?_, ?_⟩
      · simp [List.take_succ_cons, outstanding, countSubmits, countAwaits,
          List.countP_cons, isSubmit, isAwait]
      · intro hlast; simp [List.take_succ_cons, List.take] at hlast
    · refine ⟨?_, ?_⟩ <;>
        simp [List.take_succ_cons, List.take, outstanding, countSubmits, countAwaits,
          List.countP_cons, isSubmit, isAwait]
    · -- n = k + 4: reduce to the induction hypothesis at prefix length k + 2
      have ihk := ih c (k + 2)
      rw [show pipeTrace chan c cs
          = Event.submitRead chan c ::
              ((cs.map (pipeBlock chan)).flatten ++ [Event.awaitRead]) from rfl,
        List.take_succ_cons] at ihk
      simp only [List.take_succ_cons]
      cases hT : ((cs.map (pipeBlock chan)).flatten ++ [Event.awaitRead]).take (k + 1) with
      | nil =>
        refine ⟨?_, ?_⟩ <;>
          simp [outstanding, countSubmits, countAwaits, List.countP_cons,
            isSubmit, isAwait]
      | cons y ys =>
        rw [hT] at ihk
        obtain ⟨ih1, ih2⟩ := ihk
        simp only [outstanding, countSubmits, countAwaits, List.countP_cons,
          isSubmit, isAwait] at ih1 ih2 ⊢
        simp at ih1 ih2 ⊢
        exact ⟨by omega, fun hlast => ih2 hlast⟩

/-- C5 (corrected): for every Read longer than READ_MAX, doRead issues
submit(0) first, then repeatedly submit(N+1) before await(N), with a
final await not followed by a submit; every chunk size is
min(remaining, 65536) and submits/awaits balance.  However at most TWO
chunks are ever submitted-but-unawaited (two are outstanding between
submit(N+1) and await(N)); at most one is outstanding at every point
where a chunk has just been awaited, i.e. while the host processes its
data. -/
theorem c5_theorem (chan L : Nat) (h : READ_MAX < L) : readPipelineOk chan L := by
  have hmin : min L READ_MAX = READ_MAX := Nat.min_eq_right (le_of_lt h)
  have hdr : doRead chan L
      = pipeTrace chan READ_MAX (chunksGo (L - READ_MAX) (L - READ_MAX)) := by
    unfold doRead
    rw [hmin]
  unfold readPipelineOk
  refine ⟨?_, ?_, ?_, ?_, ?_, ?_, ?_⟩
  · rw [hdr]; rfl
  · rw [hdr]; exact pipe_last _ _ _
  · rw [hdr, pipe_sizes, List.tail_cons]
  · rw [hdr]; exact pipe_counts _ _ _
  · rw [hdr, pipe_sizes, sizesGreedyB_cons, hmin, beq_self_eq_true, Bool.true_and]
    exact chunksGo_greedy _ _ le_rfl
  · intro n; rw [hdr]; exact (pipe_out _ _ _ n).1
  · intro n; rw [hdr]; exact (pipe_out _ _ _ n).2

/-- Witness for C5's corrected theorem: a three-chunk read of length
131073 = 2 * 65536 + 1 on channel 3. -/
theorem c5_witness : READ_MAX < 131073 ∧ readPipelineOk 3 131073 :=
  ⟨by decide, c5_theorem 3 131073 (by decide)⟩

/-- C5 (counterexample): for the two-chunk read of length 65537 it is
not true that at most one chunk is ever submitted-but-unawaited: after
the second submit (prefix of length 2) two chunks are outstanding. -/
theorem c5_counterexample :
    READ_MAX < 65537
    ∧ ¬ (∀ n, outstanding ((doRead 0 65537).take n) ≤ 1) := by
  refine ⟨by decide, fun hall => ?_⟩
  have h2 := hall 2
  revert h2
  decide

end FLCli
